import Mathlib

/-!
Verification development for the livecodegit execution-watcher framework.

The definitions below are a shallow embedding of the Go sources:

* `pkg/watchers/common` (types file): `ExecutionEvent`, `WatcherConfig`.
* `pkg/watchers/tidal/ghci_watcher.go`: the GHCi watcher, in particular
  `extractConnection` and the `Start`/`Stop` state machine.
* `pkg/watchers/sonicpi/file_watcher.go`: the filesystem poller
  (`scanWorkspaceFiles`, `checkForChanges`, `createExecutionEvent`,
  `isSonicPiFile`, `extractBufferName`, `Start`, `Stop`, `SetPollInterval`).
* `pkg/watchers/sonicpi/osc.go`: the OSC watcher `Start`/`Stop` state machine.
* `manager.go` (WatcherManager): `StartAll`, `StopAll`, registry.
* `service.go` (WatcherService): `handleExecutionEvent`, `createAutoCommit`,
  `Stop`, `GetStats`.
* `config.go`: `GlobalConfig`, `GetEnabledWatchers`.

Modelling conventions:
* Go `time.Time` values are modelled as natural numbers (nanoseconds since an
  epoch); `t1.After(t2)` is strict `>`.
* Go `string` is modelled as Lean `String`; the character-level matching
  functions work over `String.toList`, which is faithful for the ASCII data
  these watchers process.
* Go maps are modelled as association lists in one fixed iteration order; a
  map iteration of the source corresponds to a traversal of the list.
* Go `int64` counters are modelled as `Nat`; the counters only ever increase
  by one per event, so wrap-around at 2^63 is not reachable in any scenario
  the claims quantify over and is not modelled.
* Go `float64` fields (BPM, CPS) are carried as `ℚ`; no claim computes with
  them, they only ride along as state.
* External effects (UDP socket creation, subprocess spawning, the template
  engine, the commit store, `os.ReadFile` failures, `conn.Close` results) are
  modelled as explicit outcome parameters (`Option`/`Except` values) passed
  to the function that performs the call in the source, so every code path
  of the source function is represented.
* Callback functions are identified by an abstract token (`Nat`); the list of
  events returned by a detection-loop function is the exact sequence of
  callback invocations the source performs on that pass.
-/

/-- `ExecutionEvent` from the common types file.  Field for field the Go
struct; `bpm` (`float64`) is carried as `ℚ` and `timestamp` as `Nat`. -/
structure ExecutionEvent where
  timestamp : Nat
  content : String
  buffer : String
  language : String
  environment : String
  success : Bool
  errorMessage : String
  bpm : ℚ
  beatsFromStart : Int
  filePath : String
  lineNumber : Nat
  processID : Nat
  extraData : List (String × String)
deriving Repr, DecidableEq

/-- `WatcherConfig` from the common types file. -/
structure WatcherConfig where
  language : String
  environment : String
  enabled : Bool
  options : List (String × String)
deriving Repr, DecidableEq

/-! ## GHCi watcher: connection extraction (`ghci_watcher.go`)

`extractConnection` runs the Go regexp `\b(d\d+)\b` over the content
(leftmost match), returns the matched group when present, otherwise returns
"all" when the content contains "hush", otherwise "unknown".

The regexp is embedded directly: a match at a position requires a word
boundary before the literal `d`, one or more digits (greedy: the digit run
is maximal, and since every digit is itself a word character a shorter run
can never satisfy the trailing boundary when the full run does not), and a
word boundary after the run.  `findDConn` scans positions left to right,
which is exactly the leftmost-match rule of `FindStringSubmatch`. -/

/-- Go regexp word characters: `[0-9A-Za-z_]`. -/
def isWordChar (c : Char) : Bool := c.isAlphanum || c = '_'

/-- Try to match `\b(d\d+)\b` at the head of `l`, where `prev` is the
character immediately before `l` (none at the start of the string). -/
def dMatchAt (prev : Option Char) (l : List Char) : Option (List Char) :=
  match l with
  | [] => none
  | c :: rest =>
    if c = 'd' then
      if (prev.map isWordChar).getD false then none
      else
        let digits := rest.takeWhile Char.isDigit
        if digits.isEmpty then none
        else
          match rest.drop digits.length with
          | [] => some ('d' :: digits)
          | c2 :: _ => if isWordChar c2 then none else some ('d' :: digits)
    else none

/-- Leftmost match of `\b(d\d+)\b`: scan every position in order. -/
def findDConn : Option Char → List Char → Option (List Char)
  | _, [] => none
  | prev, c :: rest =>
    match dMatchAt prev (c :: rest) with
    | some m => some m
    | none => findDConn (some c) rest

/-- `strings.Contains s pat` : `pat` occurs as a contiguous substring. -/
def containsSub (pat : List Char) : List Char → Bool
  | [] => pat.isEmpty
  | c :: rest => pat.isPrefixOf (c :: rest) || containsSub pat rest

/-- `GHCiWatcher.extractConnection` (ghci_watcher.go lines 331 to 346).
The receiver is unused in the source, so this is a plain function. -/
def extractConnection (content : String) : String :=
  match findDConn none content.toList with
  | some m => String.mk m
  | none =>
    if containsSub "hush".toList content.toList then "all" else "unknown"

/-! ## Filesystem poller (`file_watcher.go`)

The walked directory tree is modelled as a list of file entries in the order
`filepath.WalkDir` visits them; each entry carries the path, the modification
time from `d.Info()`, and the outcome of `os.ReadFile` (`Except`: the error
branch carries the OS error text).  Walk entries whose `WalkDir`/`Info` call
errors are skipped by the source, so they simply do not appear in the list.
-/

deriving instance DecidableEq for Except

/-- One file visited by the workspace walk. -/
structure FSEntry where
  path : String
  modTime : Nat
  read : Except String String
deriving Repr, DecidableEq

/-- The workspace tree in walk order. -/
abbrev FileSystem := List FSEntry

/-- The `lastModified` map (path to modification time), as an association
list in map-iteration order. -/
abbrev ModMap := List (String × Nat)

/-- Association-list read, modelling a Go map lookup. -/
def lookupMod : ModMap → String → Option Nat
  | [], _ => none
  | (q, t) :: rest, p => if q = p then some t else lookupMod rest p

/-- Association-list write, modelling a Go map assignment. -/
def setMod : ModMap → String → Nat → ModMap
  | [], p, t => [(p, t)]
  | (q, u) :: rest, p, t =>
    if q = p then (p, t) :: rest else (q, u) :: setMod rest p t

/-- `filepath.Base` for the clean, slash-separated file paths produced by a
directory walk: the part after the last slash. -/
def pathBase (p : String) : String :=
  String.mk ((p.toList.reverse.takeWhile (fun c => c ≠ '/')).reverse)

/-- A nonempty all-digit character run (`\d+` anchored on both sides). -/
def isDigitRun (l : List Char) : Bool := !l.isEmpty && l.all Char.isDigit

/-- Anchored match `^pre\d+$` over a file name. -/
def matchesAnchoredNum (pre : List Char) (name : List Char) : Bool :=
  pre.isPrefixOf name && isDigitRun (name.drop pre.length)

/-- `FileWatcher.isSonicPiFile` (file_watcher.go lines 181 to 203): the base
name matches `^workspace_\d+$`, `^buffer_\d+$`, `\.rb$` or `\.sonic$`.  The
two unanchored patterns are suffix tests, since `MatchString` searches. -/
def isSonicPiFile (path : String) : Bool :=
  let name := (pathBase path).toList
  matchesAnchoredNum "workspace_".toList name ||
  matchesAnchoredNum "buffer_".toList name ||
  ("." ++ "rb").toList.isSuffixOf name ||
  (".sonic").toList.isSuffixOf name

/-- `filepath.Ext`: the suffix of the base name starting at the final dot,
empty when there is no dot. -/
def pathExt (name : String) : String :=
  let revName := name.toList.reverse
  if revName.contains '.' then
    String.mk ('.' :: (revName.takeWhile (fun c => c ≠ '.')).reverse)
  else ""

/-- `FileWatcher.extractBufferName` (file_watcher.go lines 241 to 259). -/
def extractBufferName (fileName : String) : String :=
  if matchesAnchoredNum "workspace_".toList fileName.toList then fileName
  else if matchesAnchoredNum "buffer_".toList fileName.toList then fileName
  else if pathExt fileName = "." ++ "rb" then
    String.mk (fileName.toList.dropLast.dropLast.dropLast)
  else fileName

/-- `FileWatcher.createExecutionEvent` (file_watcher.go lines 206 to 238).
`read` is the outcome of the `os.ReadFile` call the source makes here. -/
def fwCreateExecutionEvent (filePath : String) (modTime : Nat)
    (read : Except String String) : ExecutionEvent :=
  let fileName := pathBase filePath
  let buffer := extractBufferName fileName
  { timestamp := modTime
    content :=
      match read with
      | .ok c => c
      | .error _ => "# Error reading file: " ++ filePath
    buffer := buffer
    language := "sonicpi"
    environment := "sonic-pi-files"
    success := (match read with | .ok _ => true | .error _ => false)
    errorMessage :=
      match read with
      | .ok _ => ""
      | .error e => "Failed to read file: " ++ e
    bpm := 0
    beatsFromStart := 0
    filePath := filePath
    lineNumber := 0
    processID := 0
    extraData := [("file_name", fileName), ("trigger_type", "file_change")] }

/-- `FileWatcher.scanWorkspaceFiles` (file_watcher.go lines 128 to 142):
record the modification time of every relevant file; no callback is invoked
anywhere in this function. -/
def scanWorkspaceFiles (m : ModMap) : FileSystem → ModMap
  | [] => m
  | e :: rest =>
    if isSonicPiFile e.path then
      scanWorkspaceFiles (setMod m e.path e.modTime) rest
    else scanWorkspaceFiles m rest

/-- `FileWatcher.checkForChanges` (file_watcher.go lines 145 to 178): one
polling tick.  `hasCb` models whether `w.callback` is non-nil; the returned
list is the exact sequence of callback invocations of this tick. -/
def checkForChanges (m : ModMap) (hasCb : Bool) :
    FileSystem → ModMap × List ExecutionEvent
  | [] => (m, [])
  | e :: rest =>
    if isSonicPiFile e.path then
      match lookupMod m e.path with
      | none =>
        -- first observation: record the time, emit nothing
        checkForChanges (setMod m e.path e.modTime) hasCb rest
      | some last =>
        if last < e.modTime then
          let tail := checkForChanges (setMod m e.path e.modTime) hasCb rest
          (tail.1,
            (if hasCb then [fwCreateExecutionEvent e.path e.modTime e.read]
             else []) ++ tail.2)
        else checkForChanges m hasCb rest
    else checkForChanges m hasCb rest

/-- `FileWatcher` state (file_watcher.go lines 16 to 27).  The stored
callback is identified by an abstract token; `stopChan` carries no state
beyond the running flag and is not separately modelled. -/
structure FileWatcher where
  config : WatcherConfig
  workspacePath : String
  running : Bool
  callback : Option Nat
  lastModified : ModMap
  pollInterval : Nat
deriving Repr, DecidableEq

/-- `NewFileWatcher` (file_watcher.go lines 30 to 46). -/
def NewFileWatcher (workspacePath : String) : FileWatcher :=
  { config :=
      { language := "sonicpi"
        environment := "sonic-pi-files"
        enabled := true
        options := [("workspace_path", workspacePath), ("poll_interval", "1s")] }
    workspacePath := workspacePath
    running := false
    callback := none
    lastModified := []
    pollInterval := 1000000000 }

/-- `FileWatcher.Start` (file_watcher.go lines 49 to 73).  `pathExists` is
the outcome of the `os.Stat` existence check; `fs` is the tree the initial
`scanWorkspaceFiles` walk sees.  Returns the new state and the error. -/
def fileWatcherStart (w : FileWatcher) (cb : Nat) (pathExists : Bool)
    (fs : FileSystem) : FileWatcher × Option String :=
  if w.running then (w, some "file watcher is already running")
  else if !pathExists then
    (w, some ("workspace path does not exist: " ++ w.workspacePath))
  else
    ({ w with
        callback := some cb
        running := true
        lastModified := scanWorkspaceFiles w.lastModified fs }, none)

/-- `FileWatcher.Stop` (file_watcher.go lines 76 to 88). -/
def fileWatcherStop (w : FileWatcher) : FileWatcher × Option String :=
  if !w.running then (w, none)
  else ({ w with running := false }, none)

/-- `FileWatcher.SetPollInterval` (file_watcher.go lines 262 to 268).
`intervalStr` is the `interval.String()` rendering the source stores in the
options map. -/
def setPollInterval (w : FileWatcher) (interval : Nat) (intervalStr : String) :
    FileWatcher :=
  { w with
      pollInterval := interval
      config :=
        { w.config with
            options :=
              (if (w.config.options.find? (fun o => o.1 = "poll_interval")).isSome
               then w.config.options.map
                 (fun o => if o.1 = "poll_interval" then (o.1, intervalStr) else o)
               else w.config.options ++ [("poll_interval", intervalStr)]) } }

/-! ## OSC watcher state machine (`osc.go`) -/

/-- `OSCWatcher` state (osc.go lines 16 to 28).  The UDP connection is an
abstract handle token. -/
structure OSCWatcher where
  config : WatcherConfig
  conn : Option Nat
  running : Bool
  callback : Option Nat
  oscPort : Nat
  workspacePath : String
  currentBPM : ℚ
  startTime : Nat
deriving Repr, DecidableEq

/-- `NewOSCWatcher` (osc.go lines 31 to 47).  `portStr` is the
`strconv.Itoa(port)` rendering the source stores in the options map. -/
def NewOSCWatcher (port : Nat) (portStr : String) (workspacePath : String) :
    OSCWatcher :=
  { config :=
      { language := "sonicpi"
        environment := "sonic-pi"
        enabled := true
        options := [("osc_port", portStr), ("workspace_path", workspacePath)] }
    conn := none
    running := false
    callback := none
    oscPort := port
    workspacePath := workspacePath
    currentBPM := 120
    startTime := 0 }

/-- `OSCWatcher.Start` (osc.go lines 50 to 79).  `now` is `time.Now()`;
`resolveErr` is the outcome of `net.ResolveUDPAddr` and `listen` of
`net.ListenUDP` (ok carries the connection handle).  As in the source, the
callback and start time are overwritten before the steps that can fail. -/
def oscStart (w : OSCWatcher) (cb : Nat) (now : Nat)
    (resolveErr : Option String) (listen : Except String Nat) :
    OSCWatcher × Option String :=
  if w.running then (w, some "watcher is already running")
  else
    let w1 := { w with callback := some cb, startTime := now }
    match resolveErr with
    | some e => (w1, some ("failed to resolve UDP address: " ++ e))
    | none =>
      match listen with
      | .error e => (w1, some ("failed to listen on UDP port: " ++ e))
      | .ok h => ({ w1 with conn := some h, running := true }, none)

/-- `OSCWatcher.Stop` (osc.go lines 82 to 97): clears the running flag, then
returns the result of `conn.Close()` (`closeErr`), which can be non-nil. -/
def oscStop (w : OSCWatcher) (closeErr : Option String) :
    OSCWatcher × Option String :=
  if !w.running then (w, none)
  else
    let w1 := { w with running := false }
    match w1.conn with
    | some _ => (w1, closeErr)
    | none => (w1, none)

/-! ## GHCi watcher state machine (`ghci_watcher.go`) -/

/-- `GHCiWatcher` state (ghci_watcher.go lines 17 to 36).  The subprocess
and its three pipes are collapsed to presence flags; `currentCPS` (`float64`)
is carried as `ℚ`. -/
structure GHCiWatcher where
  config : WatcherConfig
  running : Bool
  callback : Option Nat
  hasCmd : Bool
  pipesSet : Bool
  currentCPS : ℚ
  startTime : Nat
  connections : List (String × String)
  lastPatterns : List (String × String)
deriving Repr, DecidableEq

/-- `NewGHCiWatcher` (ghci_watcher.go lines 38 to 55).  The default CPS
0.5625 is the exact rational 9/16. -/
def NewGHCiWatcher : GHCiWatcher :=
  { config :=
      { language := "tidal"
        environment := "tidal-cycles"
        enabled := true
        options := [("ghci_command", "ghci"), ("boot_file", "BootTidal.hs")] }
    running := false
    callback := none
    hasCmd := false
    pipesSet := false
    currentCPS := 9 / 16
    startTime := 0
    connections := []
    lastPatterns := [] }

/-- `GHCiWatcher.Start` (ghci_watcher.go lines 58 to 108).  The pipe
creations and the process spawn are external calls whose outcomes are the
`Option String` parameters.  As in the source, callback, start time and the
command handle are assigned before the steps that can fail. -/
def ghciStart (w : GHCiWatcher) (cb : Nat) (now : Nat)
    (stdinErr stdoutErr stderrErr spawnErr : Option String) :
    GHCiWatcher × Option String :=
  if w.running then (w, some "GHCi watcher is already running")
  else
    let w1 := { w with callback := some cb, startTime := now, hasCmd := true }
    match stdinErr with
    | some e => (w1, some ("failed to create stdin pipe: " ++ e))
    | none =>
      match stdoutErr with
      | some e => (w1, some ("failed to create stdout pipe: " ++ e))
      | none =>
        match stderrErr with
        | some e => (w1, some ("failed to create stderr pipe: " ++ e))
        | none =>
          match spawnErr with
          | some e => ({ w1 with pipesSet := true }, some ("failed to start GHCi: " ++ e))
          | none => ({ w1 with pipesSet := true, running := true }, none)

/-- `GHCiWatcher.Stop` (ghci_watcher.go lines 111 to 134): no-op when not
running, otherwise clears the running flag, sends a quit command and kills
the process (external effects), and always returns nil. -/
def ghciStop (w : GHCiWatcher) : GHCiWatcher × Option String :=
  if !w.running then (w, none)
  else ({ w with running := false }, none)

/-! ## Watcher manager (`manager.go`)

`WatcherManager` works against the `ExecutionWatcher` capability contract,
not against the three concrete structs, so the registry here holds abstract
watchers: the fields of `MWatcher` are exactly the observations the manager
makes through the contract (`GetConfig().Enabled`, `IsRunning()`) plus the
outcomes the contract allows its calls to produce (`Start` may fail, `Stop`
may fail, as `OSCWatcher.Stop` returning `conn.Close()` shows).  `MWatcher`
state transitions follow the shared Stopped to Running state machine of the
three implementations: `Start` checks the running flag first and sets it on
success; `Stop` is a no-op when stopped and clears the flag (all three
implementations clear the flag before any failing step of `Stop`).
-/

structure MWatcher where
  enabled : Bool
  running : Bool
  startErr : Option String
  stopErr : Option String
deriving Repr, DecidableEq

/-- `Start` through the capability contract. -/
def MWatcher.start (w : MWatcher) : MWatcher × Option String :=
  if w.running then (w, some "already running")
  else
    match w.startErr with
    | some e => (w, some e)
    | none => ({ w with running := true }, none)

/-- `Stop` through the capability contract. -/
def MWatcher.stop (w : MWatcher) : MWatcher × Option String :=
  if !w.running then (w, none)
  else ({ w with running := false }, w.stopErr)

/-- `WatcherManager` (manager.go lines 15 to 19): a name-to-watcher registry
(in map-iteration order), one shared callback (modelled by its presence) and
the running flag. -/
structure WatcherManager where
  watchers : List (String × MWatcher)
  hasCallback : Bool
  running : Bool
deriving Repr, DecidableEq

/-- `NewWatcherManager` (manager.go lines 22 to 27). -/
def NewWatcherManager : WatcherManager :=
  { watchers := [], hasCallback := false, running := false }

def wrapStartErr (n e : String) : String :=
  "failed to start watcher " ++ n ++ ": " ++ e

def wrapStopErr (n e : String) : String :=
  "failed to stop watcher " ++ n ++ ": " ++ e

/-- Result of the `StartAll` loop over the registry: the updated registry,
the returned error, the names on which `Start` was invoked (in order), and
the `startedAny` flag. -/
structure StartFold where
  watchers : List (String × MWatcher)
  err : Option String
  started : List String
  startedAny : Bool
deriving Repr, DecidableEq

/-- The loop of `WatcherManager.StartAll` (manager.go lines 45 to 53): for
each registered watcher whose `GetConfig().Enabled` is true, call `Start`;
on a failure return at once (the remaining registry untouched). -/
def startAllAux : List (String × MWatcher) → StartFold
  | [] => ⟨[], none, [], false⟩
  | (n, w) :: rest =>
    if w.enabled then
      let s := MWatcher.start w
      match s.2 with
      | some e => ⟨(n, s.1) :: rest, some (wrapStartErr n e), [n], false⟩
      | none =>
        let q := startAllAux rest
        ⟨(n, s.1) :: q.watchers, q.err, n :: q.started, true⟩
    else
      let q := startAllAux rest
      ⟨(n, w) :: q.watchers, q.err, q.started, q.startedAny⟩

/-- Result of `StartAll`: manager state, returned error, `Start` trace. -/
structure StartAllResult where
  manager : WatcherManager
  err : Option String
  started : List String
deriving Repr, DecidableEq

/-- `WatcherManager.StartAll` (manager.go lines 40 to 57).  With no callback
set it fails immediately; on a `Start` failure it returns without updating
the running flag; on success it sets `running := startedAny`. -/
def managerStartAll (m : WatcherManager) : StartAllResult :=
  if !m.hasCallback then ⟨m, some "no callback function set", []⟩
  else
    let q := startAllAux m.watchers
    match q.err with
    | some e => ⟨{ m with watchers := q.watchers }, some e, q.started⟩
    | none =>
      ⟨{ m with watchers := q.watchers, running := q.startedAny }, none, q.started⟩

/-- Result of the `StopAll` loop: updated registry, the `lastError` value,
the names on which `Stop` was invoked (in order). -/
structure StopFold where
  watchers : List (String × MWatcher)
  err : Option String
  stopped : List String
deriving Repr, DecidableEq

/-- The loop of `WatcherManager.StopAll` (manager.go lines 63 to 69): call
`Stop` on every watcher whose `IsRunning()` is true, never aborting;
`lastError` keeps the most recent failure. -/
def stopAllAux : List (String × MWatcher) → StopFold
  | [] => ⟨[], none, []⟩
  | (n, w) :: rest =>
    if w.running then
      let s := MWatcher.stop w
      let q := stopAllAux rest
      ⟨(n, s.1) :: q.watchers,
        (match q.err with
         | some e2 => some e2
         | none =>
           match s.2 with
           | some e => some (wrapStopErr n e)
           | none => none),
        n :: q.stopped⟩
    else
      let q := stopAllAux rest
      ⟨(n, w) :: q.watchers, q.err, q.stopped⟩

/-- Result of `StopAll`. -/
structure StopAllResult where
  manager : WatcherManager
  err : Option String
  stopped : List String
deriving Repr, DecidableEq

/-- `WatcherManager.StopAll` (manager.go lines 60 to 73): run the loop, set
the running flag to false unconditionally, return `lastError`. -/
def managerStopAll (m : WatcherManager) : StopAllResult :=
  let q := stopAllAux m.watchers
  ⟨{ m with watchers := q.watchers, running := false }, q.err, q.stopped⟩

/-! ## Config manager (`config.go`) -/

/-- `GlobalConfig` (config.go lines 11 to 18); the watcher map is an
association list in map-iteration order. -/
structure GlobalConfig where
  watchers : List (String × WatcherConfig)
  defaultLanguage : String
  autoCommit : Bool
  commitMessage : String
  workspacePath : String
  logLevel : String
deriving Repr, DecidableEq

/-- `ConfigManager.GetEnabledWatchers` (config.go lines 190 to 198): the
names of the watcher configs whose enabled flag is set. -/
def getEnabledWatchers (g : GlobalConfig) : List String :=
  g.watchers.filterMap (fun p => if p.2.enabled then some p.1 else none)

/-! ## Watcher service (`service.go`) -/

/-- `WatcherService` mutable state (service.go lines 17 to 32).  The
repository and the compiled template are external collaborators; the
outcomes of the calls made to them are passed to the functions below. -/
structure WatcherService where
  manager : WatcherManager
  configMgr : GlobalConfig
  running : Bool
  autoCommit : Bool
  totalExecutions : Nat
  totalCommits : Nat
  lastExecution : Nat
deriving Repr, DecidableEq

/-- `ServiceStats` (service.go lines 327 to 333). -/
structure ServiceStats where
  totalExecutions : Nat
  totalCommits : Nat
  lastExecution : Nat
  activeWatchers : Nat
  running : Bool
deriving Repr, DecidableEq

/-- `WatcherService.createAutoCommit` (service.go lines 217 to 234):
generate the commit message (the template engine outcome is `render`), then
call the external `Commit` (outcome `commit`); each failure is wrapped and
returned. -/
def createAutoCommit (render : Except String String)
    (commit : Except String Unit) : Except String Unit :=
  match render with
  | .error e => .error ("failed to generate commit message: " ++ e)
  | .ok _ =>
    match commit with
    | .error e => .error ("failed to create commit: " ++ e)
    | .ok _ => .ok ()

/-- `WatcherService.handleExecutionEvent` (service.go lines 195 to 214):
under the lock, bump the execution counter and record the event timestamp;
then, when auto-commit is on, attempt the auto-commit and bump the commit
counter exactly on success. -/
def handleExecutionEvent (s : WatcherService) (ev : ExecutionEvent)
    (render : Except String String) (commit : Except String Unit) :
    WatcherService :=
  let s1 := { s with
      totalExecutions := s.totalExecutions + 1
      lastExecution := ev.timestamp }
  if s1.autoCommit then
    match createAutoCommit render commit with
    | .ok _ => { s1 with totalCommits := s1.totalCommits + 1 }
    | .error _ => s1
  else s1

/-- `WatcherService.Stop` (service.go lines 169 to 185): no-op when not
running; otherwise delegate to `StopAll`; when `StopAll` fails, return the
wrapped error without touching the running flag; only on success clear the
running flag. -/
def serviceStop (s : WatcherService) : WatcherService × Option String :=
  if !s.running then (s, none)
  else
    let q := managerStopAll s.manager
    match q.err with
    | some e => ({ s with manager := q.manager },
                 some ("failed to stop watchers: " ++ e))
    | none => ({ s with manager := q.manager, running := false }, none)

/-- `WatcherService.GetStats` (service.go lines 268 to 279). -/
def getStats (s : WatcherService) : ServiceStats :=
  { totalExecutions := s.totalExecutions
    totalCommits := s.totalCommits
    lastExecution := s.lastExecution
    activeWatchers := (getEnabledWatchers s.configMgr).length
    running := s.running }

/-- `true` exactly on the `ok` branch of an `Except`. -/
def isExceptOk : Except ε α → Bool
  | .ok _ => true
  | .error _ => false

/-- An abstract registered watcher that is running and whose `Stop` fails
(the capability contract allows this, and `OSCWatcher.Stop` realises it by
returning the result of `conn.Close()`). -/
def stopFailWatcher : MWatcher :=
  { enabled := true, running := true, startErr := none,
    stopErr := some "close failed" }

/-- An empty global configuration used by the concrete service states. -/
def emptyGlobalConfig : GlobalConfig :=
  { watchers := [], defaultLanguage := "sonicpi", autoCommit := true,
    commitMessage := "auto", workspacePath := "", logLevel := "info" }

/-- A running service whose manager holds one running watcher with a
failing `Stop`. -/
def stopFailService : WatcherService :=
  { manager :=
      { watchers := [("sonicpi-osc", stopFailWatcher)], hasCallback := true,
        running := true }
    configMgr := emptyGlobalConfig
    running := true
    autoCommit := true
    totalExecutions := 0
    totalCommits := 0
    lastExecution := 0 }

/-- The three concrete watchers in the Running state, with a stored
callback, used to witness C8. -/
def runningFileWatcher : FileWatcher :=
  { NewFileWatcher "/ws" with running := true, callback := some 7 }

def runningOSCWatcher : OSCWatcher :=
  { NewOSCWatcher 4559 "4559" "/ws" with running := true, callback := some 7 }

def runningGHCiWatcher : GHCiWatcher :=
  { NewGHCiWatcher with running := true, callback := some 7 }

/-- A registry of two enabled, stopped, cleanly starting watchers with the
shared callback set, used to witness C9. -/
def allEnabledManager : WatcherManager :=
  { watchers :=
      [("sonicpi-osc",
        { enabled := true, running := false, startErr := none,
          stopErr := none }),
       ("tidal-ghci",
        { enabled := true, running := false, startErr := none,
          stopErr := none })]
    hasCallback := true
    running := false }

/-- An enabled watcher already in the Running state: its `Start` fails. -/
def abortedWatcher : MWatcher :=
  { enabled := true, running := true, startErr := none, stopErr := none }

/-- An enabled, stopped watcher whose `Start` succeeds. -/
def pendingWatcher : MWatcher :=
  { enabled := true, running := false, startErr := none, stopErr := none }

/-- A registry where the first enabled watcher fails to start and a second
enabled watcher follows it. -/
def abortingManager : WatcherManager :=
  { watchers := [("early", abortedWatcher), ("late", pendingWatcher)]
    hasCallback := true
    running := false }

/-- A registry with no callback set. -/
def noCallbackManager : WatcherManager :=
  { watchers := [("w", pendingWatcher)], hasCallback := false,
    running := false }

/-- A disabled, stopped watcher. -/
def disabledWatcher : MWatcher :=
  { enabled := false, running := false, startErr := none, stopErr := none }

/-- A registry with one enabled and one disabled watcher, callback set. -/
def goodManager : WatcherManager :=
  { watchers := [("on", pendingWatcher), ("off", disabledWatcher)]
    hasCallback := true
    running := false }

/-- The last element of a list, as an option.  This matches the Go pattern
`lastError = err` executed once per failure: the final value is the last
one assigned. -/
def lastOption {α : Type} : List α → Option α
  | [] => none
  | x :: l =>
    match lastOption l with
    | some y => some y
    | none => some x

/-- The wrapped errors the `StopAll` loop encounters, in iteration order:
one entry per running watcher whose `Stop` fails. -/
def stopErrsOf (ws : List (String × MWatcher)) : List String :=
  ws.filterMap (fun q =>
    if q.2.running then (q.2.stopErr).map (wrapStopErr q.1) else none)

/-- A registry mixing one running watcher with a failing `Stop`, one
running watcher with a clean `Stop`, and one stopped watcher. -/
def mixedStopManager : WatcherManager :=
  { watchers :=
      [("a", stopFailWatcher),
       ("b", { enabled := true, running := true, startErr := none,
               stopErr := none }),
       ("c", { enabled := true, running := false, startErr := none,
               stopErr := none })]
    hasCallback := true
    running := true }

/-- The workspace file used to witness C5: already recorded with time 5,
modified at time 9. -/
def c5entry : FSEntry :=
  { path := "/ws/workspace_1", modTime := 9, read := .ok "play 60" }

/-- The workspace file used to witness C6: not yet in the recorded map. -/
def c6entry : FSEntry :=
  { path := "/ws/buffer_2", modTime := 4, read := .ok "sleep 1" }

/-! # Claims -/

/-- Claim C1: every call of `handleExecutionEvent` increments the execution
counter by exactly one and records the event timestamp as the last-execution
time, whatever the auto-commit flag is; the commit counter increments
exactly when auto-commit is on and both template rendering and the external
`Commit` call succeed, and is unchanged otherwise. -/
theorem handleExecutionEvent_counters (s : WatcherService)
    (ev : ExecutionEvent) (render : Except String String)
    (commit : Except String Unit) :
    (handleExecutionEvent s ev render commit).totalExecutions =
        s.totalExecutions + 1 ∧
    (handleExecutionEvent s ev render commit).lastExecution = ev.timestamp ∧
    (handleExecutionEvent s ev render commit).totalCommits =
        s.totalCommits +
          (if s.autoCommit && isExceptOk render && isExceptOk commit
           then 1 else 0) := by
  unfold handleExecutionEvent createAutoCommit
  cases hac : s.autoCommit <;> cases render <;> cases commit <;>
    simp [isExceptOk, hac]

/-- Claim C4 counterexample: the content "hush d1" contains the stop-all
marker "hush", yet `extractConnection` returns "d1", not "all": the
numbered-pattern regexp is consulted before the hush check. -/
theorem extractConnection_hush_cex :
    containsSub ("hush".toList) (("hush d1").toList) = true ∧
    extractConnection "hush d1" = "d1" ∧
    extractConnection "hush d1" ≠ "all" := by decide

/-- Claim C4 (amended): when the content contains no word-bounded
numbered-pattern marker (`\b(d\d+)\b` has no match), `extractConnection`
returns "all" if the content contains "hush" and "unknown" otherwise.  With
a marker present the marker wins, as the counterexample shows. -/
theorem extractConnection_spec (s : String)
    (h : findDConn none s.toList = none) :
    extractConnection s =
      (if containsSub "hush".toList s.toList then "all" else "unknown") := by
  unfold extractConnection
  rw [h]

/-- Witness for the amended C4 at the concrete contents "go hush" (no
marker, hush present) and "nothing here" (neither). -/
theorem extractConnection_spec_witness :
    findDConn none ("go hush").toList = none ∧
    extractConnection "go hush" = "all" ∧
    findDConn none ("nothing here").toList = none ∧
    extractConnection "nothing here" = "unknown" := by
  refine ⟨by decide, ?_, by decide, ?_⟩
  · have h := extractConnection_spec "go hush" (by decide)
    simpa using h
  · have h := extractConnection_spec "nothing here" (by decide)
    simpa using h

/-- The number of enabled names produced by `GetEnabledWatchers` is the
number of enabled watcher configs. -/
theorem length_filterMap_enabled (l : List (String × WatcherConfig)) :
    (l.filterMap (fun p => if p.2.enabled then some p.1 else none)).length =
    (l.filter (fun p => p.2.enabled)).length := by
  induction l with
  | nil => rfl
  | cons x xs ih =>
    cases hx : x.2.enabled <;>
      simp [List.filterMap_cons, List.filter_cons, hx, ih]

/-- Claim C10: `GetStats` reports `ActiveWatchers` as the number of watcher
configurations in the Config Manager with `enabled = true`; the right-hand
side mentions only the configuration, so the value is independent of the
service running flag and of the state of any watcher instance. -/
theorem getStats_activeWatchers (s : WatcherService) :
    (getStats s).activeWatchers =
      (s.configMgr.watchers.filter (fun p => p.2.enabled)).length := by
  unfold getStats getEnabledWatchers
  exact length_filterMap_enabled _

/-- Claim C2 counterexample: on a running service whose `StopAll` returns an
error, `Stop` leaves the running flag true — the source returns the wrapped
error before the line that clears the flag. -/
theorem serviceStop_error_keeps_running_cex :
    stopFailService.running = true ∧
    (managerStopAll stopFailService.manager).err ≠ none ∧
    (serviceStop stopFailService).1.running = true ∧
    (serviceStop stopFailService).2 ≠ none := by decide

/-- Claim C2 (amended): on a running service, `Stop` clears the running flag
exactly when the Manager `StopAll` reports no error; when `StopAll` returns
an error, `Stop` returns the wrapped error and leaves the running flag
true. -/
theorem serviceStop_running_flag (s : WatcherService)
    (h : s.running = true) :
    ((managerStopAll s.manager).err = none →
      (serviceStop s).1.running = false ∧ (serviceStop s).2 = none) ∧
    (∀ e, (managerStopAll s.manager).err = some e →
      (serviceStop s).1.running = true ∧
      (serviceStop s).2 = some ("failed to stop watchers: " ++ e)) := by
  constructor
  · intro hn
    simp [serviceStop, h, hn]
  · intro e he
    simp [serviceStop, h, he]

/-- Witness for the amended C2 at the concrete failing-stop service. -/
theorem serviceStop_running_flag_witness :
    stopFailService.running = true ∧
    (managerStopAll stopFailService.manager).err =
      some (wrapStopErr "sonicpi-osc" "close failed") ∧
    (serviceStop stopFailService).1.running = true ∧
    (serviceStop stopFailService).2 =
      some ("failed to stop watchers: " ++
        wrapStopErr "sonicpi-osc" "close failed") := by
  refine ⟨rfl, by decide, ?_⟩
  exact (serviceStop_running_flag stopFailService rfl).2 _ (by decide)

/-- Claim C8: for each of the three concrete watchers, `Start` called while
the watcher is Running returns the "already running" error and returns with
the state — stored callback included — exactly as it was: the running-flag
check is the first statement of all three `Start` methods. -/
theorem start_already_running (fw : FileWatcher) (ow : OSCWatcher)
    (gw : GHCiWatcher) (cb : Nat) (pathExists : Bool) (fs : FileSystem)
    (now : Nat) (resolveErr : Option String) (listen : Except String Nat)
    (e1 e2 e3 e4 : Option String)
    (hf : fw.running = true) (ho : ow.running = true)
    (hg : gw.running = true) :
    fileWatcherStart fw cb pathExists fs =
      (fw, some "file watcher is already running") ∧
    oscStart ow cb now resolveErr listen =
      (ow, some "watcher is already running") ∧
    ghciStart gw cb now e1 e2 e3 e4 =
      (gw, some "GHCi watcher is already running") := by
  unfold fileWatcherStart oscStart ghciStart
  rw [hf, ho, hg]
  simp

/-- Witness for C8 at the three concrete running watchers. -/
theorem start_already_running_witness :
    runningFileWatcher.running = true ∧
    runningOSCWatcher.running = true ∧
    runningGHCiWatcher.running = true ∧
    (fileWatcherStart runningFileWatcher 9 true [] =
      (runningFileWatcher, some "file watcher is already running") ∧
     oscStart runningOSCWatcher 9 0 none (.ok 3) =
      (runningOSCWatcher, some "watcher is already running") ∧
     ghciStart runningGHCiWatcher 9 0 none none none none =
      (runningGHCiWatcher, some "GHCi watcher is already running")) :=
  ⟨rfl, rfl, rfl,
    start_already_running runningFileWatcher runningOSCWatcher
      runningGHCiWatcher 9 true [] 0 none (.ok 3) none none none none
      rfl rfl rfl⟩

/-- Over a registry of enabled, stopped, successfully starting watchers, the
`StartAll` loop invokes `Start` on every entry and reports no error. -/
theorem startAllAux_all_ok (ws : List (String × MWatcher))
    (h : ∀ q ∈ ws,
      q.2.enabled = true ∧ q.2.running = false ∧ q.2.startErr = none) :
    (startAllAux ws).started = ws.map (fun q => q.1) ∧
    (startAllAux ws).err = none := by
  induction ws with
  | nil => exact ⟨rfl, rfl⟩
  | cons x rest ih =>
    obtain ⟨n, w⟩ := x
    obtain ⟨he, hr, hs⟩ := h (n, w) (List.mem_cons_self _ _)
    have he2 : w.enabled = true := he
    have hr2 : w.running = false := hr
    have hs2 : w.startErr = none := hs
    have hstart : MWatcher.start w = ({ w with running := true }, none) := by
      unfold MWatcher.start
      rw [hr2]
      simp [hs2]
    have ih2 := ih (fun q hq => h q (List.mem_cons_of_mem _ hq))
    simp [startAllAux, he2, hstart, ih2.1, ih2.2]

/-- Claim C9: each of the three concrete watcher constructors creates its
config with `Enabled = true`; no modelled operation of any of the three
watchers ever changes that field (the sources contain no write to
`config.Enabled`); consequently, since `StartAll` consults only
`watcher.GetConfig().Enabled` — the Config Manager appears nowhere in it —
a registry of such watchers has `Start` invoked on every registered entry,
whatever the Config Manager has for their enabled flags. -/
theorem concrete_watchers_always_enabled
    (p portStr wsp ivStr : String) (port cb now iv : Nat) (pe : Bool)
    (fs : FileSystem) (resolveErr closeErr e1 e2 e3 e4 : Option String)
    (listen : Except String Nat)
    (fw : FileWatcher) (ow : OSCWatcher) (gw : GHCiWatcher)
    (m : WatcherManager) (hcb : m.hasCallback = true)
    (hall : ∀ q ∈ m.watchers,
      q.2.enabled = true ∧ q.2.running = false ∧ q.2.startErr = none) :
    (NewFileWatcher p).config.enabled = true ∧
    (NewOSCWatcher port portStr wsp).config.enabled = true ∧
    NewGHCiWatcher.config.enabled = true ∧
    (fileWatcherStart fw cb pe fs).1.config.enabled = fw.config.enabled ∧
    (fileWatcherStop fw).1.config.enabled = fw.config.enabled ∧
    (setPollInterval fw iv ivStr).config.enabled = fw.config.enabled ∧
    (oscStart ow cb now resolveErr listen).1.config.enabled =
      ow.config.enabled ∧
    (oscStop ow closeErr).1.config.enabled = ow.config.enabled ∧
    (ghciStart gw cb now e1 e2 e3 e4).1.config.enabled = gw.config.enabled ∧
    (ghciStop gw).1.config.enabled = gw.config.enabled ∧
    (managerStartAll m).started = m.watchers.map (fun q => q.1) := by
  refine ⟨rfl, rfl, rfl, ?_, ?_, ?_, ?_, ?_, ?_, ?_, ?_⟩
  · unfold fileWatcherStart
    cases fw.running <;> cases pe <;> simp
  · unfold fileWatcherStop
    cases fw.running <;> simp
  · simp [setPollInterval]
  · unfold oscStart
    cases ow.running <;> cases resolveErr <;> cases listen <;> simp
  · unfold oscStop
    cases ow.running <;> cases ow.conn <;> simp
  · unfold ghciStart
    cases gw.running <;> cases e1 <;> cases e2 <;> cases e3 <;> cases e4 <;>
      simp
  · unfold ghciStop
    cases gw.running <;> simp
  · have h2 := startAllAux_all_ok m.watchers hall
    simp [managerStartAll, hcb, h2.1, h2.2]

/-- Witness for C9: on the concrete two-watcher registry, `StartAll`
invokes `Start` on both registered names. -/
theorem concrete_watchers_always_enabled_witness :
    allEnabledManager.hasCallback = true ∧
    (managerStartAll allEnabledManager).started =
      allEnabledManager.watchers.map (fun q => q.1) := by
  refine ⟨rfl, ?_⟩
  have h := concrete_watchers_always_enabled "/ws" "4559" "" "1s" 4559 0 0
    1000000000 true [] none none none none none none (.ok 0)
    (NewFileWatcher "/ws") (NewOSCWatcher 4559 "4559" "") NewGHCiWatcher
    allEnabledManager rfl (by decide)
  exact h.2.2.2.2.2.2.2.2.2.2

/-- Every name in the `StartAll` trace belongs to a registered watcher whose
config was enabled. -/
theorem startAllAux_started_enabled (ws : List (String × MWatcher)) :
    ∀ n ∈ (startAllAux ws).started,
      ∃ w, (n, w) ∈ ws ∧ w.enabled = true := by
  induction ws with
  | nil => intro n hn; simp [startAllAux] at hn
  | cons x rest ih =>
    obtain ⟨n0, w0⟩ := x
    by_cases he : w0.enabled = true
    · rcases hS : MWatcher.start w0 with ⟨w1, oe⟩
      cases oe with
      | some e =>
        intro n hn
        simp [startAllAux, he, hS] at hn
        subst hn
        exact ⟨w0, List.mem_cons_self _ _, he⟩
      | none =>
        intro n hn
        simp [startAllAux, he, hS] at hn
        rcases hn with hn | hn
        · subst hn
          exact ⟨w0, List.mem_cons_self _ _, he⟩
        · obtain ⟨w, hw, hwe⟩ := ih n hn
          exact ⟨w, List.mem_cons_of_mem _ hw, hwe⟩
    · intro n hn
      have he2 : w0.enabled = false := by
        cases h0 : w0.enabled
        · rfl
        · exact absurd h0 he
      simp [startAllAux, he2] at hn
      obtain ⟨w, hw, hwe⟩ := ih n hn
      exact ⟨w, List.mem_cons_of_mem _ hw, hwe⟩

/-- A registered watcher whose config is disabled survives the `StartAll`
loop untouched (same state, in particular the same running flag). -/
theorem startAllAux_disabled_preserved (ws : List (String × MWatcher)) :
    ∀ n w, (n, w) ∈ ws → w.enabled = false →
      (n, w) ∈ (startAllAux ws).watchers := by
  induction ws with
  | nil => intro n w hw; simp at hw
  | cons x rest ih =>
    obtain ⟨n0, w0⟩ := x
    intro n w hw hwe
    rcases List.mem_cons.mp hw with hw | hw
    · obtain ⟨hn, hw0⟩ := Prod.mk.injEq .. ▸ hw
      subst hn
      subst hw0
      simp [startAllAux, hwe]
    · by_cases he : w0.enabled = true
      · rcases hS : MWatcher.start w0 with ⟨w1, oe⟩
        cases oe with
        | some e =>
          simp [startAllAux, he, hS]
          right
          exact hw
        | none =>
          simp [startAllAux, he, hS]
          right
          exact ih n w hw hwe
      · have he2 : w0.enabled = false := by
          cases h0 : w0.enabled
          · rfl
          · exact absurd h0 he
        simp [startAllAux, he2]
        right
        exact ih n w hw hwe

/-- When the `StartAll` loop finishes without an error, `Start` was invoked
on exactly the enabled registered watchers, in registry order. -/
theorem startAllAux_success_started (ws : List (String × MWatcher)) :
    (startAllAux ws).err = none →
    (startAllAux ws).started =
      (ws.filter (fun q => q.2.enabled)).map (fun q => q.1) := by
  induction ws with
  | nil => intro _; rfl
  | cons x rest ih =>
    obtain ⟨n0, w0⟩ := x
    intro hn
    by_cases he : w0.enabled = true
    · rcases hS : MWatcher.start w0 with ⟨w1, oe⟩
      cases oe with
      | some e => simp [startAllAux, he, hS] at hn
      | none =>
        simp [startAllAux, he, hS] at hn ⊢
        exact ih hn
    · have he2 : w0.enabled = false := by
        cases h0 : w0.enabled
        · rfl
        · exact absurd h0 he
      simp [startAllAux, he2] at hn ⊢
      exact ih hn

/-- Claim C3 counterexample: with the callback set, a registry holding an
enabled watcher whose `Start` fails followed by another enabled watcher,
`StartAll` aborts after the failure: `Start` is invoked on "early" only,
never on the enabled "late" — so `Start` is not called on exactly the
enabled watchers. -/
theorem startAll_abort_cex :
    abortingManager.hasCallback = true ∧
    ("late", pendingWatcher) ∈ abortingManager.watchers ∧
    pendingWatcher.enabled = true ∧
    (managerStartAll abortingManager).started = ["early"] ∧
    "late" ∉ (managerStartAll abortingManager).started ∧
    (managerStartAll abortingManager).err ≠ none := by decide

/-- Claim C3 (amended): with no callback set, `StartAll` fails immediately
and starts nothing; otherwise it calls `Start` only on registered watchers
whose `GetConfig().Enabled` is true, aborting at the first `Start` failure
(so later enabled watchers may be skipped); when every attempted `Start`
succeeds it calls `Start` on exactly the enabled watchers; a watcher whose
config has `enabled = false` is preserved untouched, hence never
transitioned to Running. -/
theorem startAll_enabled_spec (m : WatcherManager) :
    (m.hasCallback = false →
      managerStartAll m = ⟨m, some "no callback function set", []⟩) ∧
    (∀ n ∈ (managerStartAll m).started,
      ∃ w, (n, w) ∈ m.watchers ∧ w.enabled = true) ∧
    (∀ n w, (n, w) ∈ m.watchers → w.enabled = false →
      (n, w) ∈ (managerStartAll m).manager.watchers) ∧
    ((managerStartAll m).err = none → m.hasCallback = true →
      (managerStartAll m).started =
        (m.watchers.filter (fun q => q.2.enabled)).map (fun q => q.1)) := by
  cases hcb : m.hasCallback with
  | false =>
    refine ⟨fun _ => ?_, ?_, ?_, ?_⟩
    · simp [managerStartAll, hcb]
    · intro n hn
      simp [managerStartAll, hcb] at hn
    · intro n w hw _
      simp [managerStartAll, hcb]
      exact hw
    · intro _ hc
      exact Bool.noConfusion hc
  | true =>
    cases hqe : (startAllAux m.watchers).err with
    | some e =>
      refine ⟨fun hc => ?_, ?_, ?_, fun hn _ => ?_⟩
      · exact Bool.noConfusion hc
      · intro n hn
        simp [managerStartAll, hcb, hqe] at hn
        exact startAllAux_started_enabled m.watchers n hn
      · intro n w hw hwe
        simp [managerStartAll, hcb, hqe]
        exact startAllAux_disabled_preserved m.watchers n w hw hwe
      · simp [managerStartAll, hcb, hqe] at hn
    | none =>
      refine ⟨fun hc => ?_, ?_, ?_, fun _ _ => ?_⟩
      · exact Bool.noConfusion hc
      · intro n hn
        simp [managerStartAll, hcb, hqe] at hn
        exact startAllAux_started_enabled m.watchers n hn
      · intro n w hw hwe
        simp [managerStartAll, hcb, hqe]
        exact startAllAux_disabled_preserved m.watchers n w hw hwe
      · simp [managerStartAll, hcb, hqe]
        exact startAllAux_success_started m.watchers hqe

/-- Witness for the amended C3: without a callback `StartAll` fails and
starts nothing; on a clean registry it starts exactly the enabled watcher
and preserves the disabled one. -/
theorem startAll_enabled_spec_witness :
    managerStartAll noCallbackManager =
      ⟨noCallbackManager, some "no callback function set", []⟩ ∧
    (managerStartAll goodManager).started =
      (goodManager.watchers.filter (fun q => q.2.enabled)).map
        (fun q => q.1) ∧
    ("off", disabledWatcher) ∈ (managerStartAll goodManager).manager.watchers :=
  ⟨(startAll_enabled_spec noCallbackManager).1 rfl,
   (startAll_enabled_spec goodManager).2.2.2 (by decide) rfl,
   (startAll_enabled_spec goodManager).2.2.1 "off" disabledWatcher
     (by decide) rfl⟩

/-- `lastOption` is empty exactly on the empty list. -/
theorem lastOption_eq_none {α : Type} (l : List α) :
    lastOption l = none ↔ l = [] := by
  induction l with
  | nil => simp [lastOption]
  | cons x l ih =>
    simp only [lastOption]
    cases hl : lastOption l <;> simp

/-- The `StopAll` loop invokes `Stop` exactly on the running watchers, in
registry order, and its `lastError` is the last wrapped failure. -/
theorem stopAllAux_spec (ws : List (String × MWatcher)) :
    (stopAllAux ws).stopped =
      (ws.filter (fun q => q.2.running)).map (fun q => q.1) ∧
    (stopAllAux ws).err = lastOption (stopErrsOf ws) := by
  induction ws with
  | nil => exact ⟨rfl, rfl⟩
  | cons x rest ih =>
    obtain ⟨n, w⟩ := x
    cases hw : w.running with
    | false =>
      have hstep : stopAllAux ((n, w) :: rest) =
          ⟨(n, w) :: (stopAllAux rest).watchers, (stopAllAux rest).err,
           (stopAllAux rest).stopped⟩ := by
        simp [stopAllAux, hw]
      have herrs : stopErrsOf ((n, w) :: rest) = stopErrsOf rest := by
        simp [stopErrsOf, List.filterMap_cons, hw]
      rw [hstep, herrs]
      exact ⟨by simp [List.filter_cons, hw, ih.1], by simp [ih.2]⟩
    | true =>
      have hstop : MWatcher.stop w = ({ w with running := false }, w.stopErr) := by
        unfold MWatcher.stop
        rw [hw]
        simp
      have hstep : stopAllAux ((n, w) :: rest) =
          ⟨(n, { w with running := false }) :: (stopAllAux rest).watchers,
           (match (stopAllAux rest).err with
            | some e2 => some e2
            | none =>
              match w.stopErr with
              | some e => some (wrapStopErr n e)
              | none => none),
           n :: (stopAllAux rest).stopped⟩ := by
        simp [stopAllAux, hw, hstop]
      rw [hstep]
      refine ⟨by simp [List.filter_cons, hw, ih.1], ?_⟩
      cases hse : w.stopErr with
      | none =>
        have herrs : stopErrsOf ((n, w) :: rest) = stopErrsOf rest := by
          simp [stopErrsOf, List.filterMap_cons, hw, hse]
        rw [herrs, ← ih.2]
        cases he : (stopAllAux rest).err <;> simp
      | some e =>
        have herrs : stopErrsOf ((n, w) :: rest) =
            wrapStopErr n e :: stopErrsOf rest := by
          simp [stopErrsOf, List.filterMap_cons, hw, hse]
        rw [herrs]
        simp only [lastOption, ← ih.2]
        cases he : (stopAllAux rest).err <;> simp

/-- Claim C7: `StopAll` calls `Stop` exactly on the registered watchers
whose `IsRunning()` is true, in registry order, never aborting at a
failure; it clears the manager running flag unconditionally; it returns the
last failure encountered, and nil exactly when no attempted `Stop`
failed. -/
theorem stopAll_spec (m : WatcherManager) :
    (managerStopAll m).stopped =
      (m.watchers.filter (fun q => q.2.running)).map (fun q => q.1) ∧
    (managerStopAll m).manager.running = false ∧
    (managerStopAll m).err = lastOption (stopErrsOf m.watchers) ∧
    ((managerStopAll m).err = none ↔
      ∀ q ∈ m.watchers, q.2.running = true → q.2.stopErr = none) := by
  have h := stopAllAux_spec m.watchers
  have hm : (managerStopAll m).stopped = (stopAllAux m.watchers).stopped := rfl
  have hm2 : (managerStopAll m).err = (stopAllAux m.watchers).err := rfl
  refine ⟨hm.trans h.1, rfl, hm2.trans h.2, ?_⟩
  rw [hm2, h.2, lastOption_eq_none]
  constructor
  · intro hnil q hq hr
    cases hse : q.2.stopErr with
    | none => rfl
    | some e =>
      exfalso
      have : wrapStopErr q.1 e ∈ stopErrsOf m.watchers := by
        unfold stopErrsOf
        refine List.mem_filterMap.mpr ⟨q, hq, ?_⟩
        rw [hr, hse]
        simp
      rw [hnil] at this
      simp at this
  · intro hall
    unfold stopErrsOf
    rw [List.filterMap_eq_nil_iff]
    intro q hq
    cases hr : q.2.running with
    | false => simp [hr]
    | true =>
      have := hall q hq hr
      simp [hr, this]

/-- Witness for C7: on the mixed registry, `Stop` is invoked on both
running watchers (continuing past the failure of the first), the manager
running flag clears, and the failure of "a" is returned. -/
theorem stopAll_spec_witness :
    (managerStopAll mixedStopManager).stopped = ["a", "b"] ∧
    (managerStopAll mixedStopManager).manager.running = false ∧
    (managerStopAll mixedStopManager).err =
      some (wrapStopErr "a" "close failed") := by
  have h := stopAll_spec mixedStopManager
  refine ⟨?_, h.2.1, ?_⟩
  · rw [h.1]
    decide
  · rw [h.2.2.1]
    decide

/-- The event built from a file change carries that file path. -/
theorem fwEvent_filePath (p : String) (t : Nat) (r : Except String String) :
    (fwCreateExecutionEvent p t r).filePath = p := by
  cases r <;> rfl

/-- The event built from a file change carries the new modification time as
its timestamp. -/
theorem fwEvent_timestamp (p : String) (t : Nat) (r : Except String String) :
    (fwCreateExecutionEvent p t r).timestamp = t := by
  cases r <;> rfl

/-- A Go map write changes exactly the written key. -/
theorem lookupMod_setMod (m : ModMap) (q p : String) (t : Nat) :
    lookupMod (setMod m q t) p = if q = p then some t else lookupMod m p := by
  induction m with
  | nil => by_cases hqp : q = p <;> simp [setMod, lookupMod, hqp]
  | cons x rest ih =>
    obtain ⟨r, u⟩ := x
    by_cases hrq : r = q
    · subst hrq
      by_cases hrp : r = p <;> simp [setMod, lookupMod, hrp]
    · by_cases hrp : r = p
      · subst hrp
        have hqp : ¬q = r := fun h => hrq h.symm
        simp [setMod, lookupMod, hrq, hqp]
      · simp [setMod, lookupMod, hrq, hrp, ih]

/-- Every event a polling tick emits names the path of some walked file:
`checkForChanges` invents no paths. -/
theorem check_events_paths (cb : Bool) :
    ∀ (fs : FileSystem) (m : ModMap),
      ∀ ev ∈ (checkForChanges m cb fs).2, ∃ e ∈ fs, ev.filePath = e.path := by
  intro fs
  induction fs with
  | nil => intro m ev hev; simp [checkForChanges] at hev
  | cons x rest ih =>
    intro m ev hev
    by_cases hxs : isSonicPiFile x.path = true
    · cases hlk : lookupMod m x.path with
      | none =>
        have hstep : checkForChanges m cb (x :: rest) =
            checkForChanges (setMod m x.path x.modTime) cb rest := by
          simp [checkForChanges, hxs, hlk]
        rw [hstep] at hev
        obtain ⟨e, he, hp⟩ := ih _ ev hev
        exact ⟨e, List.mem_cons_of_mem _ he, hp⟩
      | some last =>
        by_cases hlt : last < x.modTime
        · have hstep : checkForChanges m cb (x :: rest) =
              ((checkForChanges (setMod m x.path x.modTime) cb rest).1,
               (if cb then [fwCreateExecutionEvent x.path x.modTime x.read]
                else []) ++
                 (checkForChanges (setMod m x.path x.modTime) cb rest).2) := by
            simp [checkForChanges, hxs, hlk, hlt]
          rw [hstep] at hev
          rcases List.mem_append.mp hev with hev | hev
          · cases cb with
            | false => simp at hev
            | true =>
              simp at hev
              subst hev
              exact ⟨x, List.mem_cons_self _ _, fwEvent_filePath _ _ _⟩
          · obtain ⟨e, he, hp⟩ := ih _ ev hev
            exact ⟨e, List.mem_cons_of_mem _ he, hp⟩
        · have hstep : checkForChanges m cb (x :: rest) =
              checkForChanges m cb rest := by
            simp [checkForChanges, hxs, hlk, hlt]
          rw [hstep] at hev
          obtain ⟨e, he, hp⟩ := ih _ ev hev
          exact ⟨e, List.mem_cons_of_mem _ he, hp⟩
    · have hstep : checkForChanges m cb (x :: rest) =
          checkForChanges m cb rest := by
        simp [checkForChanges, hxs]
      rw [hstep] at hev
      obtain ⟨e, he, hp⟩ := ih _ ev hev
      exact ⟨e, List.mem_cons_of_mem _ he, hp⟩

/-- A polling tick does not change the recorded time of a path none of the
walked files has. -/
theorem check_lookup_other (cb : Bool) (p : String) :
    ∀ (fs : FileSystem) (m : ModMap), (∀ e ∈ fs, e.path ≠ p) →
      lookupMod (checkForChanges m cb fs).1 p = lookupMod m p := by
  intro fs
  induction fs with
  | nil => intro m _; simp [checkForChanges]
  | cons x rest ih =>
    intro m hne
    have hxp : x.path ≠ p := hne x (List.mem_cons_self _ _)
    have hrest : ∀ e ∈ rest, e.path ≠ p :=
      fun e he => hne e (List.mem_cons_of_mem _ he)
    by_cases hxs : isSonicPiFile x.path = true
    · cases hlk : lookupMod m x.path with
      | none =>
        have hstep : (checkForChanges m cb (x :: rest)).1 =
            (checkForChanges (setMod m x.path x.modTime) cb rest).1 := by
          simp [checkForChanges, hxs, hlk]
        rw [hstep, ih _ hrest, lookupMod_setMod]
        simp [hxp]
      | some last =>
        by_cases hlt : last < x.modTime
        · have hstep : (checkForChanges m cb (x :: rest)).1 =
              (checkForChanges (setMod m x.path x.modTime) cb rest).1 := by
            simp [checkForChanges, hxs, hlk, hlt]
          rw [hstep, ih _ hrest, lookupMod_setMod]
          simp [hxp]
        · have hstep : (checkForChanges m cb (x :: rest)).1 =
              (checkForChanges m cb rest).1 := by
            simp [checkForChanges, hxs, hlk, hlt]
          rw [hstep, ih _ hrest]
    · have hstep : (checkForChanges m cb (x :: rest)).1 =
          (checkForChanges m cb rest).1 := by
        simp [checkForChanges, hxs]
      rw [hstep, ih _ hrest]

/-- The initial scan does not touch the recorded time of a path none of the
walked files has. -/
theorem scan_lookup_other (p : String) :
    ∀ (fs : FileSystem) (m : ModMap), (∀ e ∈ fs, e.path ≠ p) →
      lookupMod (scanWorkspaceFiles m fs) p = lookupMod m p := by
  intro fs
  induction fs with
  | nil => intro m _; simp [scanWorkspaceFiles]
  | cons x rest ih =>
    intro m hne
    have hxp : x.path ≠ p := hne x (List.mem_cons_self _ _)
    have hrest : ∀ e ∈ rest, e.path ≠ p :=
      fun e he => hne e (List.mem_cons_of_mem _ he)
    by_cases hxs : isSonicPiFile x.path = true
    · have hstep : scanWorkspaceFiles m (x :: rest) =
          scanWorkspaceFiles (setMod m x.path x.modTime) rest := by
        simp [scanWorkspaceFiles, hxs]
      rw [hstep, ih _ hrest, lookupMod_setMod]
      simp [hxp]
    · have hstep : scanWorkspaceFiles m (x :: rest) =
          scanWorkspaceFiles m rest := by
        simp [scanWorkspaceFiles, hxs]
      rw [hstep, ih _ hrest]

/-- The initial scan records the modification time of a relevant file the
walk visits exactly once. -/
theorem scan_records (p : String) (e : FSEntry)
    (hsp : isSonicPiFile p = true) :
    ∀ (fs : FileSystem) (m : ModMap),
      fs.filter (fun x => x.path == p) = [e] →
      lookupMod (scanWorkspaceFiles m fs) p = some e.modTime := by
  intro fs
  induction fs with
  | nil => intro m huniq; simp at huniq
  | cons x rest ih =>
    intro m huniq
    by_cases hxp : x.path = p
    · have hcons : x :: rest.filter (fun y => y.path == p) = [e] := by
        simpa [List.filter_cons, hxp] using huniq
      have hxe : x = e := (List.cons.injEq ..).mp hcons |>.1
      have hrest0 : rest.filter (fun y => y.path == p) = [] :=
        (List.cons.injEq ..).mp hcons |>.2
      have hrest : ∀ y ∈ rest, y.path ≠ p := by
        intro y hy hyp
        have hmem : y ∈ rest.filter (fun y => y.path == p) :=
          List.mem_filter.mpr ⟨hy, by simp [hyp]⟩
        rw [hrest0] at hmem
        simp at hmem
      have hxs : isSonicPiFile x.path = true := by rw [hxp]; exact hsp
      have hstep : scanWorkspaceFiles m (x :: rest) =
          scanWorkspaceFiles (setMod m x.path x.modTime) rest := by
        simp [scanWorkspaceFiles, hxs]
      rw [hstep, scan_lookup_other p rest _ hrest, lookupMod_setMod, hxp]
      simp [hxe]
    · have huniq2 : rest.filter (fun y => y.path == p) = [e] := by
        simpa [List.filter_cons, hxp] using huniq
      by_cases hxs : isSonicPiFile x.path = true
      · have hstep : scanWorkspaceFiles m (x :: rest) =
            scanWorkspaceFiles (setMod m x.path x.modTime) rest := by
          simp [scanWorkspaceFiles, hxs]
        rw [hstep, ih _ huniq2]
      · have hstep : scanWorkspaceFiles m (x :: rest) =
            scanWorkspaceFiles m rest := by
          simp [scanWorkspaceFiles, hxs]
        rw [hstep, ih _ huniq2]

/-- Claim C5: a relevant file already known to the poller (present in the
recorded map with time t0), visited exactly once by the tick walk with a
modification time past t0, yields exactly one emitted event for that path
on this tick, and that event carries the new modification time as its
timestamp. -/
theorem poller_emits_exactly_once (e : FSEntry)
    (hsp : isSonicPiFile e.path = true) :
    ∀ (fs : FileSystem) (m : ModMap) (t0 : Nat),
      lookupMod m e.path = some t0 → t0 < e.modTime →
      fs.filter (fun x => x.path == e.path) = [e] →
      ((checkForChanges m true fs).2.filter
          (fun ev => ev.filePath == e.path)).length = 1 ∧
      ∀ ev ∈ (checkForChanges m true fs).2, ev.filePath = e.path →
        ev.timestamp = e.modTime := by
  intro fs
  induction fs with
  | nil => intro m t0 _ _ huniq; simp at huniq
  | cons x rest ih =>
    intro m t0 hknown hadv huniq
    by_cases hxp : x.path = e.path
    · have hcons : x :: rest.filter (fun y => y.path == e.path) = [e] := by
        simpa [List.filter_cons, hxp] using huniq
      have hxe : x = e := ((List.cons.injEq ..).mp hcons).1
      have hrest0 : rest.filter (fun y => y.path == e.path) = [] :=
        ((List.cons.injEq ..).mp hcons).2
      have hrest : ∀ y ∈ rest, y.path ≠ e.path := by
        intro y hy hyp
        have hmem : y ∈ rest.filter (fun y => y.path == e.path) :=
          List.mem_filter.mpr ⟨hy, by simp [hyp]⟩
        rw [hrest0] at hmem
        simp at hmem
      subst hxe
      have hstep : checkForChanges m true (x :: rest) =
          ((checkForChanges (setMod m x.path x.modTime) true rest).1,
           fwCreateExecutionEvent x.path x.modTime x.read ::
             (checkForChanges (setMod m x.path x.modTime) true rest).2) := by
        simp [checkForChanges, hsp, hknown, hadv]
      have htail : ∀ ev ∈
          (checkForChanges (setMod m x.path x.modTime) true rest).2,
          ev.filePath ≠ x.path := by
        intro ev hev
        obtain ⟨y, hy, hp⟩ := check_events_paths true rest _ ev hev
        rw [hp]
        exact hrest y hy
      rw [hstep]
      constructor
      · have hnil :
            (checkForChanges (setMod m x.path x.modTime) true rest).2.filter
              (fun ev => ev.filePath == x.path) = [] := by
          rw [List.filter_eq_nil_iff]
          intro ev hev
          simp [htail ev hev]
        simp [List.filter_cons, fwEvent_filePath, hnil]
      · intro ev hev hevp
        rcases List.mem_cons.mp hev with rfl | hev2
        · exact fwEvent_timestamp _ _ _
        · exact absurd hevp (htail ev hev2)
    · have huniq2 : rest.filter (fun y => y.path == e.path) = [e] := by
        simpa [List.filter_cons, hxp] using huniq
      by_cases hxs : isSonicPiFile x.path = true
      · cases hlk : lookupMod m x.path with
        | none =>
          have hstep : checkForChanges m true (x :: rest) =
              checkForChanges (setMod m x.path x.modTime) true rest := by
            simp [checkForChanges, hxs, hlk]
          rw [hstep]
          refine ih _ t0 ?_ hadv huniq2
          rw [lookupMod_setMod]
          simp [hxp, hknown]
        | some last =>
          by_cases hlt : last < x.modTime
          · have hknown2 :
                lookupMod (setMod m x.path x.modTime) e.path = some t0 := by
              rw [lookupMod_setMod]
              simp [hxp, hknown]
            have ih2 := ih _ t0 hknown2 hadv huniq2
            have hstep : checkForChanges m true (x :: rest) =
                ((checkForChanges (setMod m x.path x.modTime) true rest).1,
                 fwCreateExecutionEvent x.path x.modTime x.read ::
                   (checkForChanges (setMod m x.path x.modTime) true
                     rest).2) := by
              simp [checkForChanges, hxs, hlk, hlt]
            rw [hstep]
            have hne : (fwCreateExecutionEvent x.path x.modTime
                x.read).filePath ≠ e.path := by
              rw [fwEvent_filePath]
              exact hxp
            constructor
            · simpa [List.filter_cons, hne] using ih2.1
            · intro ev hev hevp
              rcases List.mem_cons.mp hev with rfl | hev2
              · exact absurd hevp hne
              · exact ih2.2 ev hev2 hevp
          · have hstep : checkForChanges m true (x :: rest) =
                checkForChanges m true rest := by
              simp [checkForChanges, hxs, hlk, hlt]
            rw [hstep]
            exact ih _ t0 hknown hadv huniq2
      · have hstep : checkForChanges m true (x :: rest) =
            checkForChanges m true rest := by
          simp [checkForChanges, hxs]
        rw [hstep]
        exact ih _ t0 hknown hadv huniq2

/-- Witness for C5 at a one-file workspace: the tick emits exactly one
event, stamped with the new modification time 9. -/
theorem poller_emits_exactly_once_witness :
    isSonicPiFile c5entry.path = true ∧
    lookupMod [("/ws/workspace_1", 5)] c5entry.path = some 5 ∧
    5 < c5entry.modTime ∧
    List.filter (fun x => x.path == c5entry.path) [c5entry] = [c5entry] ∧
    (((checkForChanges [("/ws/workspace_1", 5)] true [c5entry]).2.filter
        (fun ev => ev.filePath == c5entry.path)).length = 1 ∧
     ∀ ev ∈ (checkForChanges [("/ws/workspace_1", 5)] true [c5entry]).2,
       ev.filePath = c5entry.path → ev.timestamp = c5entry.modTime) :=
  ⟨by decide, by decide, by decide, by decide,
   poller_emits_exactly_once c5entry (by decide) [c5entry]
     [("/ws/workspace_1", 5)] 5 (by decide) (by decide) (by decide)⟩

/-- Claim C6: a file not yet present in the recorded map (first observed on
this pass) never has the callback invoked for it: the tick emits no event
with its path, while both the initial scan and the tick record its
modification time for later passes. -/
theorem poller_first_seen_suppression (cb : Bool) (p : String) (e : FSEntry)
    (hsp : isSonicPiFile p = true) :
    ∀ (fs : FileSystem) (m : ModMap),
      lookupMod m p = none →
      fs.filter (fun x => x.path == p) = [e] →
      ((∀ ev ∈ (checkForChanges m cb fs).2, ev.filePath ≠ p) ∧
       lookupMod (checkForChanges m cb fs).1 p = some e.modTime ∧
       lookupMod (scanWorkspaceFiles m fs) p = some e.modTime) := by
  intro fs
  induction fs with
  | nil => intro m _ huniq; simp at huniq
  | cons x rest ih =>
    intro m hnew huniq
    have hscan := scan_records p e hsp (x :: rest) m huniq
    by_cases hxp : x.path = p
    · have hcons : x :: rest.filter (fun y => y.path == p) = [e] := by
        simpa [List.filter_cons, hxp] using huniq
      have hxe : x = e := ((List.cons.injEq ..).mp hcons).1
      have hrest0 : rest.filter (fun y => y.path == p) = [] :=
        ((List.cons.injEq ..).mp hcons).2
      have hrest : ∀ y ∈ rest, y.path ≠ p := by
        intro y hy hyp
        have hmem : y ∈ rest.filter (fun y => y.path == p) :=
          List.mem_filter.mpr ⟨hy, by simp [hyp]⟩
        rw [hrest0] at hmem
        simp at hmem
      have hxs : isSonicPiFile x.path = true := by rw [hxp]; exact hsp
      have hlk : lookupMod m x.path = none := by rw [hxp]; exact hnew
      have hstep : checkForChanges m cb (x :: rest) =
          checkForChanges (setMod m x.path x.modTime) cb rest := by
        simp [checkForChanges, hxs, hlk]
      refine ⟨?_, ?_, hscan⟩
      · intro ev hev
        rw [hstep] at hev
        obtain ⟨y, hy, hp2⟩ := check_events_paths cb rest _ ev hev
        rw [hp2]
        exact hrest y hy
      · rw [hstep, check_lookup_other cb p rest _ hrest, lookupMod_setMod,
          hxp]
        simp [hxe]
    · have huniq2 : rest.filter (fun y => y.path == p) = [e] := by
        simpa [List.filter_cons, hxp] using huniq
      by_cases hxs : isSonicPiFile x.path = true
      · cases hlk : lookupMod m x.path with
        | none =>
          have hnew2 : lookupMod (setMod m x.path x.modTime) p = none := by
            rw [lookupMod_setMod]
            simp [hxp, hnew]
          have ih2 := ih _ hnew2 huniq2
          have hstep : checkForChanges m cb (x :: rest) =
              checkForChanges (setMod m x.path x.modTime) cb rest := by
            simp [checkForChanges, hxs, hlk]
          exact ⟨by rw [hstep]; exact ih2.1, by rw [hstep]; exact ih2.2.1,
            hscan⟩
        | some last =>
          by_cases hlt : last < x.modTime
          · have hnew2 : lookupMod (setMod m x.path x.modTime) p = none := by
              rw [lookupMod_setMod]
              simp [hxp, hnew]
            have ih2 := ih _ hnew2 huniq2
            have hstep : checkForChanges m cb (x :: rest) =
                ((checkForChanges (setMod m x.path x.modTime) cb rest).1,
                 (if cb then [fwCreateExecutionEvent x.path x.modTime x.read]
                  else []) ++
                   (checkForChanges (setMod m x.path x.modTime) cb
                     rest).2) := by
              simp [checkForChanges, hxs, hlk, hlt]
            refine ⟨?_, ?_, hscan⟩
            · intro ev hev
              rw [hstep] at hev
              rcases List.mem_append.mp hev with hev | hev
              · cases cb with
                | false => simp at hev
                | true =>
                  simp at hev
                  subst hev
                  rw [fwEvent_filePath]
                  exact hxp
              · exact ih2.1 ev hev
            · rw [hstep]
              exact ih2.2.1
          · have ih2 := ih _ hnew huniq2
            have hstep : checkForChanges m cb (x :: rest) =
                checkForChanges m cb rest := by
              simp [checkForChanges, hxs, hlk, hlt]
            exact ⟨by rw [hstep]; exact ih2.1, by rw [hstep]; exact ih2.2.1,
              hscan⟩
      · have ih2 := ih _ hnew huniq2
        have hstep : checkForChanges m cb (x :: rest) =
            checkForChanges m cb rest := by
          simp [checkForChanges, hxs]
        exact ⟨by rw [hstep]; exact ih2.1, by rw [hstep]; exact ih2.2.1,
          hscan⟩

/-- Witness for C6 on an empty recorded map: no event is emitted for the
newly observed file and its time is recorded by both walks. -/
theorem poller_first_seen_suppression_witness :
    isSonicPiFile "/ws/buffer_2" = true ∧
    lookupMod [] "/ws/buffer_2" = none ∧
    List.filter (fun x => x.path == "/ws/buffer_2") [c6entry] = [c6entry] ∧
    ((∀ ev ∈ (checkForChanges [] true [c6entry]).2,
        ev.filePath ≠ "/ws/buffer_2") ∧
     lookupMod (checkForChanges [] true [c6entry]).1 "/ws/buffer_2" =
       some c6entry.modTime ∧
     lookupMod (scanWorkspaceFiles [] [c6entry]) "/ws/buffer_2" =
       some c6entry.modTime) :=
  ⟨by decide, by decide, by decide,
   poller_first_seen_suppression true "/ws/buffer_2" c6entry (by decide)
     [c6entry] [] (by decide) (by decide)⟩
